import Mathlib

/-!
Verification of the duplicate-filtering news pipeline (`src/main.py`).

The pipeline fetches candidate articles, filters exact-link and fuzzy-title
duplicates against the titles/links already stored in a spreadsheet ledger,
optionally attaches an AI summary, and appends fixed-schema rows.

This file shallowly embeds the Python code: dictionaries of JSON values
become `Option`-typed structures (`none` models a missing key / JSON null),
Python sets become lists used up to membership, and the per-article loop body
becomes the pure state-transformer `step` folded over the reversed batch.
-/

namespace AiNewsPipeline

/-- Candidate article as delivered by the news API (`results` entries).
Fields accessed with one-argument `dict.get` are `Option String` (`none`
covers both a missing key and a JSON null, which Python's `get` conflates).
`pubDate` is accessed with a two-argument `get`, which distinguishes a
missing key (outer `none`) from a present-but-null value (`some none`). -/
structure Article where
  title : Option String
  description : Option String
  link : Option String
  image_url : Option String
  source_id : Option String
  pubDate : Option (Option String)
deriving DecidableEq, Repr

/-- One appended spreadsheet row, in column order: status placeholder, title,
AI summary, image URL, source id, link, favicon URL, published timestamp,
state label.  Cells that can hold Python `None` are `Option String`. -/
structure OutputRow where
  status : String
  title : Option String
  summary : String
  image_url : Option String
  source_id : Option String
  link : String
  favicon_url : String
  published : Option String
  state : String
deriving DecidableEq, Repr

/-- Python truthiness of an optional string: `None` and `""` are falsy. -/
def pyTruthy : Option String → Bool
  | none => false
  | some s => s != ""

/-! ### The similarity function

`thefuzz.fuzz.token_sort_ratio` (rapidfuzz backend): with full processing
enabled (the default), a `None` argument scores 0; otherwise both strings are
preprocessed (non-ASCII characters dropped since `force_ascii=True`,
non-alphanumeric characters replaced by spaces, lowercased, stripped), their
whitespace-separated tokens are sorted and re-joined, and the normalized
Indel similarity `200*lcs/(|a|+|b|)` is computed (100 for two empty strings)
and rounded to the nearest integer, ties to even (Python `round`). -/

/-- Longest common subsequence length of two character lists. -/
def lcs : List Char → List Char → Nat
  | [], _ => 0
  | _ :: _, [] => 0
  | a :: as, b :: bs =>
    if a = b then lcs as bs + 1
    else max (lcs (a :: as) bs) (lcs as (b :: bs))
termination_by a b => a.length + b.length

/-- Python `round` on the rational `num/den` (`den > 0`): nearest integer,
ties to even (banker's rounding). -/
def pyRound (num den : Nat) : Nat :=
  let q := num / den
  let r := num % den
  if 2 * r < den then q
  else if den < 2 * r then q + 1
  else if q % 2 = 0 then q else q + 1

/-- Normalized Indel similarity of two strings in `[0, 100]`
(rapidfuzz `fuzz.ratio` semantics, rounded like thefuzz's wrapper). -/
def strScore (a b : String) : Nat :=
  if a.length + b.length = 0 then 100
  else pyRound (200 * lcs a.toList b.toList) (a.length + b.length)

/-- Strip leading and trailing spaces from a character list (after
preprocessing the only whitespace left is the space character). -/
def stripSpaces (cs : List Char) : List Char :=
  ((cs.dropWhile (fun c => c == ' ')).reverse.dropWhile (fun c => c == ' ')).reverse

/-- thefuzz `utils.full_process` with `force_ascii := true`: drop non-ASCII
characters, replace non-alphanumeric characters by spaces, lowercase,
and strip surrounding whitespace. -/
def full_process (s : String) : String :=
  String.mk (stripSpaces ((s.toList.filter (fun c => c.toNat < 128)).map
    (fun c => if c.isAlphanum then c.toLower else ' ')))

/-- Accumulator-based whitespace splitter: `cur` holds the characters of the
current token in reverse. -/
def splitTokensGo : List Char → List Char → List String
  | [], cur => if cur = [] then [] else [String.mk cur.reverse]
  | c :: cs, cur =>
    if c = ' ' then
      (if cur = [] then [] else [String.mk cur.reverse]) ++ splitTokensGo cs []
    else splitTokensGo cs (c :: cur)

/-- Whitespace tokenization (Python `str.split()`): split on runs of spaces,
producing no empty tokens. -/
def splitTokens (s : String) : List String :=
  splitTokensGo s.toList []

/-- Lexicographic comparison of character lists by code point, matching
Python's `<` on strings. -/
def charListLt : List Char → List Char → Bool
  | [], [] => false
  | [], _ :: _ => true
  | _ :: _, [] => false
  | a :: as, b :: bs => if a < b then true else if b < a then false else charListLt as bs

/-- String comparison by code-point lexicographic order. -/
def strLtB (a b : String) : Bool := charListLt a.toList b.toList

/-- Insert a string into a sorted list, keeping it sorted. -/
def insertStr (x : String) : List String → List String
  | [] => [x]
  | y :: ys => if strLtB x y then x :: y :: ys else y :: insertStr x ys

/-- Insertion sort on strings (Python `sorted` on a list of tokens). -/
def sortStrings : List String → List String
  | [] => []
  | x :: xs => insertStr x (sortStrings xs)

/-- Preprocess for token-sort comparison: full-process, tokenize, sort the
tokens, and re-join with single spaces. -/
def token_sort_prep (s : String) : String :=
  String.intercalate " " (sortStrings (splitTokens (full_process s)))

/-- Model of `fuzz.token_sort_ratio` as called by the pipeline: either
argument being Python `None` scores 0; otherwise the token-sorted
preprocessed strings are compared by normalized Indel similarity. -/
def token_sort_score : Option String → Option String → Nat
  | some a, some b => strScore (token_sort_prep a) (token_sort_prep b)
  | _, _ => 0

/-! ### The duplicate filter loop -/

/-- Mutable state of the processing loop in `main`: the known-links set,
the known-titles set (which can acquire Python `None` when an untitled
article is accepted), and the accumulated `rows_to_add`. -/
structure FilterState where
  links : List String
  titles : List (Option String)
  rows : List OutputRow
deriving DecidableEq, Repr

/-- Similarity threshold (`SIMILARITY_THRESHOLD = 50`). -/
def SIMILARITY_THRESHOLD : Nat := 50

/-- Hostname extraction from a URL, modelling `urlparse(url).netloc`:
if the text before the first colon is a valid scheme it is removed; the
netloc is then the text after a leading `//` up to the next `/`, `?` or `#`,
and empty when the remainder does not start with `//`. -/
def netloc (url : String) : String :=
  let cs := url.toList
  let pre := cs.takeWhile (fun c => c != ':')
  let rest :=
    match cs.dropWhile (fun c => c != ':') with
    | [] => cs
    | _ :: post =>
      match pre with
      | [] => cs
      | c :: pcs =>
        if c.isAlpha && pcs.all (fun d => d.isAlphanum || d == '+' || d == '-' || d == '.')
        then post else cs
  match rest with
  | '/' :: '/' :: r =>
    String.mk (r.takeWhile (fun c => c != '/' && c != '?' && c != '#'))
  | _ => ""

/-- The favicon URL template applied to a link's hostname. -/
def faviconUrl (l : String) : String :=
  "https://www.google.com/s2/favicons?domain=" ++ netloc l ++ "&sz=64"

/-- Published timestamp: `article.get('pubDate', now_utc_iso)` — the current
time is used only when the `pubDate` key is absent. -/
def pubOrNow : Option (Option String) → String → Option String
  | none, now => some now
  | some v, _ => v

/-- The row built for an accepted article with (present, non-empty) link `l`:
`["", title, ai_summary, image_url, source_id, link, favicon, timestamp,
"Published"]`. -/
def buildRow (now : String) (summarize : Option String → Option String → String)
    (a : Article) (l : String) : OutputRow :=
  { status := ""
    title := a.title
    summary := summarize a.title a.description
    image_url := a.image_url
    source_id := a.source_id
    link := l
    favicon_url := faviconUrl l
    published := pubOrNow a.pubDate now
    state := "Published" }

/-- Body of the per-article loop in `main`: reject when the link is falsy or
already known, reject when some known title scores strictly above the
threshold against the candidate title, otherwise accept — build the row and
add the link and title to the known sets. -/
def step (now : String) (summarize : Option String → Option String → String)
    (st : FilterState) (a : Article) : FilterState :=
  match a.link with
  | none => st
  | some l =>
    if l = "" then st
    else if l ∈ st.links then st
    else if st.titles.any (fun t => decide (SIMILARITY_THRESHOLD < token_sort_score a.title t)) then st
    else
      { links := l :: st.links
        titles := a.title :: st.titles
        rows := st.rows ++ [buildRow now summarize a l] }

/-- Initial loop state: known links from ledger column 6, known titles from
ledger column 2, no rows accumulated. -/
def initState (links0 titles0 : List String) : FilterState :=
  { links := links0, titles := titles0.map some, rows := [] }

/-- The whole filtering phase of `main`: fold the loop body over the
candidate batch in reverse input order (`for article in reversed(articles)`). -/
def runFilter (now : String) (summarize : Option String → Option String → String)
    (links0 titles0 : List String) (articles : List Article) : FilterState :=
  articles.reverse.foldl (step now summarize) (initState links0 titles0)

/-- Boolean acceptance test for an article against a loop state: link present
and non-empty, link not already known, and no known title scoring strictly
above the threshold. -/
def accepts (st : FilterState) (a : Article) : Bool :=
  match a.link with
  | none => false
  | some l =>
    !(l == "") && !(decide (l ∈ st.links))
      && !(st.titles.any (fun t => decide (SIMILARITY_THRESHOLD < token_sort_score a.title t)))

/-! ### Summarizer and orchestration -/

/-- Model of `get_ai_summary`: if the description or the configured API key is
falsy, the "not available" sentinel is returned without calling the backend;
otherwise the backend call either returns content (stripped of surrounding
whitespace) or raises, in which case the exception is swallowed and the
"failed" sentinel is returned. -/
def get_ai_summary (apiKey : Option String) (backend : Except Unit String)
    (title description : Option String) : String :=
  if !(pyTruthy description && pyTruthy apiKey) then "Summary not available."
  else
    match backend with
    | Except.ok content => content.trim
    | Except.error _ => "AI summary failed."

/-- Writes performed by one invocation of `main`, as a list of batched
`append_rows` calls.  Ledger authentication failure or a news-fetch failure
is caught and causes an early return with no writes; otherwise the filter
runs over the fetched batch and the accumulated rows are appended in one
batch when non-empty. -/
def mainWrites (auth : Except Unit (List String × List String))
    (fetch : Except Unit (List Article)) (now : String)
    (summarize : Option String → Option String → String) : List (List OutputRow) :=
  match auth with
  | Except.error _ => []
  | Except.ok (links0, titles0) =>
    match fetch with
    | Except.error _ => []
    | Except.ok articles =>
      let st := runFilter now summarize links0 titles0 articles
      if st.rows = [] then [] else [st.rows]

/-! ### Basic lemmas about one loop iteration -/

/-- Unfolded acceptance criterion: link present, non-empty, unknown, and all
known titles score at or below the threshold. -/
theorem accepts_true_iff (st : FilterState) (a : Article) (l : String)
    (hl : a.link = some l) :
    accepts st a = true ↔
      (l ≠ "" ∧ l ∉ st.links ∧
        ∀ t ∈ st.titles, token_sort_score a.title t ≤ SIMILARITY_THRESHOLD) := by
  unfold accepts
  rw [hl]
  simp only [Bool.and_eq_true, Bool.not_eq_true', beq_eq_false_iff_ne, ne_eq,
    decide_eq_false_iff_not, List.any_eq_false, decide_eq_true_eq, Nat.not_lt]
  tauto

/-- A rejected article leaves the loop state untouched. -/
theorem step_of_accepts_false (now : String)
    (f : Option String → Option String → String) (st : FilterState) (a : Article)
    (h : accepts st a = false) : step now f st a = st := by
  unfold accepts at h
  unfold step
  cases hl : a.link with
  | none => rfl
  | some l =>
    rw [hl] at h
    dsimp only
    simp only [Bool.and_eq_false_iff, Bool.not_eq_false', beq_iff_eq,
      decide_eq_true_eq] at h
    by_cases hc : l = ""
    · rw [if_pos hc]
    · rw [if_neg hc]
      by_cases hm : l ∈ st.links
      · rw [if_pos hm]
      · rw [if_neg hm]
        rcases h with (h1 | h2) | h3
        · exact absurd h1 hc
        · exact absurd h2 hm
        · rw [if_pos h3]

/-- An accepted article conses its link and title onto the known sets and
appends its row. -/
theorem step_of_accepts_true (now : String)
    (f : Option String → Option String → String) (st : FilterState) (a : Article)
    (l : String) (hl : a.link = some l) (h : accepts st a = true) :
    step now f st a =
      { links := l :: st.links
        titles := a.title :: st.titles
        rows := st.rows ++ [buildRow now f a l] } := by
  rw [accepts_true_iff st a l hl] at h
  obtain ⟨h1, h2, h3⟩ := h
  unfold step
  rw [hl]
  dsimp only
  rw [if_neg h1, if_neg h2, if_neg]
  simp only [List.any_eq_true, decide_eq_true_eq, not_exists, not_and, Nat.not_lt]
  intro t ht
  exact h3 t ht

/-- lcs with the empty list on the left is 0. -/
theorem lcs_nil_left (b : List Char) : lcs [] b = 0 := by
  simp [lcs]

/-- lcs of anything with the empty list is 0. -/
theorem lcs_nil_right (a : List Char) : lcs a [] = 0 := by
  cases a <;> simp [lcs]

/-- Unfolding of lcs on two conses with equal heads. -/
theorem lcs_cons_cons_eq (x : Char) (xs ys : List Char) :
    lcs (x :: xs) (x :: ys) = lcs xs ys + 1 := by
  simp [lcs]

/-- Unfolding of lcs on two conses with distinct heads. -/
theorem lcs_cons_cons_ne (x y : Char) (xs ys : List Char) (h : x ≠ y) :
    lcs (x :: xs) (y :: ys) = max (lcs (x :: xs) ys) (lcs xs (y :: ys)) := by
  simp [lcs, h]

/-- lcs of a list with itself is its length. -/
theorem lcs_self (l : List Char) : lcs l l = l.length := by
  induction l with
  | nil => simp [lcs]
  | cons a as ih => simp [lcs, ih]

/-- lcs is symmetric (auxiliary form with a fuel bound for induction). -/
theorem lcs_comm_aux : ∀ (n : Nat) (a b : List Char),
    a.length + b.length ≤ n → lcs a b = lcs b a := by
  intro n
  induction n with
  | zero =>
    intro a b h
    have ha : a = [] := by cases a <;> simp_all
    have hb : b = [] := by cases b <;> simp_all
    subst ha; subst hb; rfl
  | succ n ih =>
    intro a b h
    cases a with
    | nil => rw [lcs_nil_right, lcs_nil_left]
    | cons x xs =>
      cases b with
      | nil => rw [lcs_nil_right, lcs_nil_left]
      | cons y ys =>
        simp only [List.length_cons] at h
        by_cases hxy : x = y
        · subst hxy
          rw [lcs_cons_cons_eq, lcs_cons_cons_eq, ih xs ys (by omega)]
        · rw [lcs_cons_cons_ne x y xs ys hxy, lcs_cons_cons_ne y x ys xs (Ne.symm hxy),
            ih (x :: xs) ys (by simp; omega), ih xs (y :: ys) (by simp; omega),
            Nat.max_comm]

/-- lcs is symmetric. -/
theorem lcs_comm (a b : List Char) : lcs a b = lcs b a :=
  lcs_comm_aux (a.length + b.length) a b (Nat.le_refl _)

/-- The raw similarity score is symmetric. -/
theorem strScore_comm (a b : String) : strScore a b = strScore b a := by
  unfold strScore
  rw [Nat.add_comm b.length a.length, lcs_comm b.toList a.toList]

/-- A Python `None` right argument always scores 0. -/
theorem token_sort_score_none_right (x : Option String) : token_sort_score x none = 0 := by
  cases x <;> rfl

/-- A Python `None` left argument always scores 0. -/
theorem token_sort_score_none_left (y : Option String) : token_sort_score none y = 0 := by
  cases y <;> rfl

/-- The modelled `token_sort_ratio` is symmetric. -/
theorem token_sort_score_comm (x y : Option String) :
    token_sort_score x y = token_sort_score y x := by
  cases x with
  | none => rw [token_sort_score_none_left, token_sort_score_none_right]
  | some a =>
    cases y with
    | none => rw [token_sort_score_none_left, token_sort_score_none_right]
    | some b => exact strScore_comm _ _

/-- Every step either leaves the state unchanged or accepts: conses the link
and the title and appends the article's row. -/
theorem step_cases (now : String) (f : Option String → Option String → String)
    (st : FilterState) (a : Article) :
    step now f st a = st ∨
    ∃ l, a.link = some l ∧ accepts st a = true ∧
      step now f st a =
        { links := l :: st.links
          titles := a.title :: st.titles
          rows := st.rows ++ [buildRow now f a l] } := by
  cases hacc : accepts st a with
  | false => exact Or.inl (step_of_accepts_false now f st a hacc)
  | true =>
    cases hl : a.link with
    | none =>
      refine Or.inl ?_
      unfold step
      rw [hl]
    | some l => exact Or.inr ⟨l, rfl, rfl, step_of_accepts_true now f st a l hl hacc⟩

/-- Rows already accumulated survive a step. -/
theorem step_rows_mem (now : String) (f : Option String → Option String → String)
    (st : FilterState) (a : Article) (r : OutputRow) (h : r ∈ st.rows) :
    r ∈ (step now f st a).rows := by
  rcases step_cases now f st a with heq | ⟨l, _, _, heq⟩
  · rw [heq]; exact h
  · rw [heq]; exact List.mem_append_left _ h

/-- Rows already accumulated survive the rest of the fold. -/
theorem foldl_rows_mem (now : String) (f : Option String → Option String → String)
    (l : List Article) (st : FilterState) (r : OutputRow) (h : r ∈ st.rows) :
    r ∈ (l.foldl (step now f) st).rows := by
  induction l generalizing st with
  | nil => exact h
  | cons x xs ih => exact ih (step now f st x) (step_rows_mem now f st x r h)

/-! ### Shape of reachable loop states -/

/-- The known sets are always exactly the initial ledger columns plus the
links/titles of the rows accepted so far (newest first). -/
def GoodState (links0 titles0 : List String) (st : FilterState) : Prop :=
  st.links = (st.rows.map OutputRow.link).reverse ++ links0 ∧
  st.titles = (st.rows.map OutputRow.title).reverse ++ titles0.map some

/-- The initial state is good. -/
theorem goodState_init (L T : List String) : GoodState L T (initState L T) :=
  ⟨rfl, rfl⟩

/-- Goodness is preserved by one loop iteration. -/
theorem goodState_step (now : String) (f : Option String → Option String → String)
    (L T : List String) (st : FilterState) (a : Article)
    (h : GoodState L T st) : GoodState L T (step now f st a) := by
  rcases step_cases now f st a with heq | ⟨l, hl, hacc, heq⟩
  · rw [heq]; exact h
  · obtain ⟨h1, h2⟩ := h
    rw [heq]
    constructor
    · simp [buildRow, h1]
    · simp [buildRow, h2]

/-- Goodness is preserved by the whole fold. -/
theorem goodState_fold (now : String) (f : Option String → Option String → String)
    (L T : List String) (l : List Article) (st : FilterState)
    (h : GoodState L T st) : GoodState L T (l.foldl (step now f) st) := by
  induction l generalizing st with
  | nil => exact h
  | cons x xs ih => exact ih _ (goodState_step now f L T st x h)

/-- The final state of the filter is good. -/
theorem goodState_run (now : String) (f : Option String → Option String → String)
    (L T : List String) (arts : List Article) :
    GoodState L T (runFilter now f L T arts) :=
  goodState_fold now f L T arts.reverse (initState L T) (goodState_init L T)

/-! ### Similarity soundness of accepted rows (claim C1) -/

/-- Accepted rows score at most the threshold against all pre-existing titles
and pairwise against each other (later row scored against earlier). -/
def TitleSound (titles0 : List String) (st : FilterState) : Prop :=
  (∀ r ∈ st.rows, ∀ t ∈ titles0,
      token_sort_score r.title (some t) ≤ SIMILARITY_THRESHOLD) ∧
  List.Pairwise
    (fun r1 r2 => token_sort_score r2.title r1.title ≤ SIMILARITY_THRESHOLD) st.rows

/-- Title soundness is preserved by one loop iteration of a good state. -/
theorem titleSound_step (now : String) (f : Option String → Option String → String)
    (L T : List String) (st : FilterState) (a : Article)
    (hg : GoodState L T st) (h : TitleSound T st) : TitleSound T (step now f st a) := by
  rcases step_cases now f st a with heq | ⟨l, hl, hacc, heq⟩
  · rw [heq]; exact h
  · obtain ⟨hg1, hg2⟩ := hg
    obtain ⟨hne, hnotmem, hbound⟩ := (accepts_true_iff st a l hl).mp hacc
    obtain ⟨h1, h2⟩ := h
    rw [heq]
    constructor
    · intro r hr t ht
      simp only [List.mem_append, List.mem_singleton] at hr
      rcases hr with hr | hr
      · exact h1 r hr t ht
      · subst hr
        have hmem : (some t) ∈ st.titles := by
          rw [hg2]
          exact List.mem_append_right _ (List.mem_map_of_mem some ht)
        simpa [buildRow] using hbound _ hmem
    · rw [List.pairwise_append]
      refine ⟨h2, ?_, ?_⟩
      · simp
      · intro r1 hr1 r2 hr2
        simp only [List.mem_singleton] at hr2
        subst hr2
        have hmem : r1.title ∈ st.titles := by
          rw [hg2]
          exact List.mem_append_left _
            (List.mem_reverse.mpr (List.mem_map_of_mem _ hr1))
        simpa [buildRow] using hbound _ hmem

/-- Title soundness is preserved by the whole fold. -/
theorem titleSound_fold (now : String) (f : Option String → Option String → String)
    (L T : List String) (l : List Article) (st : FilterState)
    (hg : GoodState L T st) (h : TitleSound T st) :
    TitleSound T (l.foldl (step now f) st) := by
  induction l generalizing st with
  | nil => exact h
  | cons x xs ih =>
    exact ih _ (goodState_step now f L T st x hg) (titleSound_step now f L T st x hg h)

/-! ### Link uniqueness of accepted rows (claim C2) -/

/-- Accepted rows have pairwise distinct links, none of which was already in
the ledger's link column. -/
def LinkSound (links0 : List String) (st : FilterState) : Prop :=
  List.Pairwise (fun r1 r2 => r1.link ≠ r2.link) st.rows ∧
  ∀ r ∈ st.rows, r.link ∉ links0

/-- Link soundness is preserved by one loop iteration of a good state. -/
theorem linkSound_step (now : String) (f : Option String → Option String → String)
    (L T : List String) (st : FilterState) (a : Article)
    (hg : GoodState L T st) (h : LinkSound L st) : LinkSound L (step now f st a) := by
  rcases step_cases now f st a with heq | ⟨l, hl, hacc, heq⟩
  · rw [heq]; exact h
  · obtain ⟨hg1, hg2⟩ := hg
    obtain ⟨hne, hnotmem, _⟩ := (accepts_true_iff st a l hl).mp hacc
    obtain ⟨h1, h2⟩ := h
    rw [hg1] at hnotmem
    simp only [List.mem_append, List.mem_reverse, List.mem_map, not_or,
      not_exists, not_and] at hnotmem
    obtain ⟨hnrows, hnL⟩ := hnotmem
    rw [heq]
    constructor
    · rw [List.pairwise_append]
      refine ⟨h1, by simp, ?_⟩
      intro r1 hr1 r2 hr2
      simp only [List.mem_singleton] at hr2
      subst hr2
      intro hcontra
      exact hnrows r1 hr1 (by simpa [buildRow] using hcontra)
    · intro r hr
      rcases List.mem_append.mp hr with hr | hr
      · exact h2 r hr
      · simp only [List.mem_singleton] at hr
        subst hr
        simpa [buildRow] using hnL

/-- Link soundness is preserved by the whole fold. -/
theorem linkSound_fold (now : String) (f : Option String → Option String → String)
    (L T : List String) (l : List Article) (st : FilterState)
    (hg : GoodState L T st) (h : LinkSound L st) :
    LinkSound L (l.foldl (step now f) st) := by
  induction l generalizing st with
  | nil => exact h
  | cons x xs ih =>
    exact ih _ (goodState_step now f L T st x hg) (linkSound_step now f L T st x hg h)

/-! ### Claim theorems C1 and C2 -/

/-- C1: a candidate whose link is present and not already known is rejected
(no row appended) iff some title in the current known-titles set scores
strictly above the threshold 50 against the candidate's title; consequently
every accepted row of a run scores at most 50 against every pre-existing
known title and against every other accepted row of the same run. -/
theorem claim1_semantic_dup_iff_and_bounds :
    (∀ (now : String) (f : Option String → Option String → String)
        (st : FilterState) (a : Article) (l : String),
        a.link = some l → l ≠ "" → l ∉ st.links →
        ((step now f st a).rows = st.rows ↔
          ∃ t ∈ st.titles, SIMILARITY_THRESHOLD < token_sort_score a.title t)) ∧
    (∀ (now : String) (f : Option String → Option String → String)
        (L T : List String) (arts : List Article),
        (∀ r ∈ (runFilter now f L T arts).rows, ∀ t ∈ T,
            token_sort_score r.title (some t) ≤ SIMILARITY_THRESHOLD ∧
            token_sort_score (some t) r.title ≤ SIMILARITY_THRESHOLD) ∧
        List.Pairwise (fun r1 r2 =>
            token_sort_score r1.title r2.title ≤ SIMILARITY_THRESHOLD ∧
            token_sort_score r2.title r1.title ≤ SIMILARITY_THRESHOLD)
          (runFilter now f L T arts).rows) := by
  constructor
  · intro now f st a l hl hne hfresh
    by_cases hdup : st.titles.any
        (fun t => decide (SIMILARITY_THRESHOLD < token_sort_score a.title t)) = true
    · have hstep : step now f st a = st := by
        unfold step
        rw [hl]
        dsimp only
        rw [if_neg hne, if_neg hfresh, if_pos hdup]
      constructor
      · intro _
        simpa only [List.any_eq_true, decide_eq_true_eq] using hdup
      · intro _
        rw [hstep]
    · have hacc : accepts st a = true := by
        rw [accepts_true_iff st a l hl]
        refine ⟨hne, hfresh, ?_⟩
        intro t ht
        simp only [List.any_eq_true, decide_eq_true_eq, not_exists, not_and] at hdup
        exact Nat.le_of_not_lt (hdup t ht)
      have hstep := step_of_accepts_true now f st a l hl hacc
      constructor
      · intro habs
        rw [hstep] at habs
        have hh := congrArg List.length habs
        simp at hh
      · intro hex
        simp only [List.any_eq_true, decide_eq_true_eq] at hdup
        exact absurd hex hdup
  · intro now f L T arts
    have hts := titleSound_fold now f L T arts.reverse (initState L T)
      (goodState_init L T) ⟨by simp [initState], by simp [initState]⟩
    obtain ⟨h1, h2⟩ := hts
    constructor
    · intro r hr t ht
      refine ⟨h1 r hr t ht, ?_⟩
      rw [token_sort_score_comm]
      exact h1 r hr t ht
    · refine h2.imp ?_
      intro r1 r2 h12
      exact ⟨by rw [token_sort_score_comm]; exact h12, h12⟩

/-- C2: no two rows accepted in the same run share a link, and no accepted
row's link occurs in the ledger's pre-existing link column. -/
theorem claim2_links_unique :
    ∀ (now : String) (f : Option String → Option String → String)
      (L T : List String) (arts : List Article),
      List.Pairwise (fun r1 r2 => r1.link ≠ r2.link) (runFilter now f L T arts).rows ∧
      ∀ r ∈ (runFilter now f L T arts).rows, r.link ∉ L := by
  intro now f L T arts
  exact linkSound_fold now f L T arts.reverse (initState L T) (goodState_init L T)
    ⟨by simp [initState], by simp [initState]⟩

/-- Witness for C1: a candidate with a fresh link whose empty title matches a
known empty title is rejected (run on one concrete state). -/
theorem claim1_semantic_dup_iff_and_bounds_witness :
    (step "n" (fun _ _ => "s") ⟨[], [some ""], []⟩
        ⟨some "", none, some "u", none, none, none⟩).rows = [] :=
  (claim1_semantic_dup_iff_and_bounds.1 "n" (fun _ _ => "s") ⟨[], [some ""], []⟩
      ⟨some "", none, some "u", none, none, none⟩ "u" rfl (by decide) (by simp)).mpr
    ⟨some "", by simp, by decide⟩

/-- An article is only ever accepted when its link is present. -/
theorem accepts_some_link (st : FilterState) (a : Article)
    (h : accepts st a = true) : ∃ l, a.link = some l := by
  cases hl : a.link with
  | none =>
    exfalso
    unfold accepts at h
    rw [hl] at h
    dsimp only at h
    exact Bool.false_ne_true h
  | some l => exact ⟨l, rfl⟩

/-- Witness for C2: an accepted concrete article's link is not among the
pre-existing ledger links. -/
theorem claim2_links_unique_witness :
    (buildRow "n" (fun _ _ => "s") ⟨none, none, some "u", none, none, none⟩ "u").link
      ∉ ["k"] :=
  (claim2_links_unique "n" (fun _ _ => "s") ["k"] []
      [⟨none, none, some "u", none, none, none⟩]).2 _ (by decide)

/-- C3: candidates are folded in reverse input order, so when the batch is
`[B, A]` (B newer) and both are accepted, the appended rows list A's row
before B's row. -/
theorem claim3_reverse_order_preserved
    (now : String) (f : Option String → Option String → String)
    (L T : List String) (B A : Article)
    (hA : accepts (initState L T) A = true)
    (hB : accepts (step now f (initState L T) A) B = true) :
    (runFilter now f L T [B, A]).rows =
      [buildRow now f A (A.link.getD ""), buildRow now f B (B.link.getD "")] := by
  obtain ⟨lA, hlA⟩ := accepts_some_link _ _ hA
  obtain ⟨lB, hlB⟩ := accepts_some_link _ _ hB
  have hsA := step_of_accepts_true now f (initState L T) A lA hlA hA
  have hsB := step_of_accepts_true now f (step now f (initState L T) A) B lB hlB hB
  show ((step now f (step now f (initState L T) A) B)).rows = _
  rw [hsB, hsA]
  simp [initState, hlA, hlB]

/-- Witness for C3: a concrete two-article batch appended oldest first. -/
theorem claim3_reverse_order_preserved_witness :
    (runFilter "n" (fun _ _ => "s") [] []
        [⟨some "b", none, some "lb", none, none, none⟩,
         ⟨none, none, some "la", none, none, none⟩]).rows =
      [buildRow "n" (fun _ _ => "s") ⟨none, none, some "la", none, none, none⟩
        ((some "la").getD ""),
       buildRow "n" (fun _ _ => "s") ⟨some "b", none, some "lb", none, none, none⟩
        ((some "lb").getD "")] :=
  claim3_reverse_order_preserved "n" (fun _ _ => "s") [] []
    ⟨some "b", none, some "lb", none, none, none⟩
    ⟨none, none, some "la", none, none, none⟩ (by decide) (by decide)

/-- C5: a candidate whose link is missing or empty (Python-falsy) is rejected
with no further checks: the loop state is completely unchanged, whatever the
title. -/
theorem claim5_missing_link_rejected
    (now : String) (f : Option String → Option String → String)
    (st : FilterState) (a : Article) (h : pyTruthy a.link = false) :
    step now f st a = st := by
  unfold step
  cases hl : a.link with
  | none => rfl
  | some l =>
    rw [hl] at h
    unfold pyTruthy at h
    simp only [bne_eq_false_iff_eq] at h
    dsimp only
    rw [if_pos h]

/-- Witness for C5: a missing-link and an empty-link candidate both leave a
concrete state untouched. -/
theorem claim5_missing_link_rejected_witness :
    step "n" (fun _ _ => "s") ⟨["x"], [some "t"], []⟩
        ⟨some "t", none, none, none, none, none⟩ = ⟨["x"], [some "t"], []⟩ ∧
    step "n" (fun _ _ => "s") ⟨["x"], [some "t"], []⟩
        ⟨some "fresh title", none, some "", none, none, none⟩ = ⟨["x"], [some "t"], []⟩ :=
  ⟨claim5_missing_link_rejected "n" (fun _ _ => "s") _ _ rfl,
   claim5_missing_link_rejected "n" (fun _ _ => "s") _ _ (by decide)⟩

/-- C6: two empty titles score the maximal similarity 100, so a candidate
with an empty title and a fresh link is rejected whenever the known-titles
set already holds an empty title. -/
theorem claim6_empty_title_maximal_similarity :
    token_sort_score (some "") (some "") = 100 ∧
    ∀ (now : String) (f : Option String → Option String → String)
      (st : FilterState) (a : Article) (l : String),
      a.link = some l → a.title = some "" → (some "") ∈ st.titles →
      l ≠ "" → l ∉ st.links →
      step now f st a = st := by
  constructor
  · decide
  · intro now f st a l hl ht hmem _hne _hfresh
    apply step_of_accepts_false
    have hany : st.titles.any
        (fun t => decide (SIMILARITY_THRESHOLD < token_sort_score a.title t)) = true :=
      List.any_eq_true.mpr ⟨some "", hmem, by rw [ht]; decide⟩
    unfold accepts
    rw [hl]
    dsimp only
    rw [hany]
    simp

/-- Witness for C6: concrete empty-titled candidate with a fresh link is
rejected against a known empty title. -/
theorem claim6_empty_title_maximal_similarity_witness :
    token_sort_score (some "") (some "") = 100 ∧
    step "n" (fun _ _ => "s") ⟨["k"], [some ""], []⟩
        ⟨some "", none, some "u", none, none, none⟩ = ⟨["k"], [some ""], []⟩ :=
  ⟨claim6_empty_title_maximal_similarity.1,
   claim6_empty_title_maximal_similarity.2 "n" (fun _ _ => "s") _ _ "u" rfl rfl
     (by decide) (by decide) (by decide)⟩

/-! ### Summarizer independence (claim C7) -/

/-- Forget the summary cell of a row (everything except the summarizer's
contribution). -/
def eraseSummary (r : OutputRow) : OutputRow := { r with summary := "" }

/-- Two loop states that agree except possibly in the summary cells. -/
def SummAgnostic (s1 s2 : FilterState) : Prop :=
  s1.links = s2.links ∧ s1.titles = s2.titles ∧
  s1.rows.map eraseSummary = s2.rows.map eraseSummary

/-- Acceptance only looks at the known sets, never at summaries. -/
theorem accepts_of_summAgnostic (s1 s2 : FilterState) (a : Article)
    (h : SummAgnostic s1 s2) : accepts s1 a = accepts s2 a := by
  obtain ⟨h1, h2, _⟩ := h
  unfold accepts
  rw [h1, h2]

/-- One iteration with different summarizers preserves agreement outside the
summary cells. -/
theorem step_summAgnostic (now : String)
    (f g : Option String → Option String → String)
    (s1 s2 : FilterState) (a : Article) (h : SummAgnostic s1 s2) :
    SummAgnostic (step now f s1 a) (step now g s2 a) := by
  obtain ⟨h1, h2, h3⟩ := h
  cases hacc : accepts s1 a with
  | false =>
    have hacc2 : accepts s2 a = false := by
      rw [← accepts_of_summAgnostic s1 s2 a ⟨h1, h2, h3⟩]
      exact hacc
    rw [step_of_accepts_false now f s1 a hacc, step_of_accepts_false now g s2 a hacc2]
    exact ⟨h1, h2, h3⟩
  | true =>
    obtain ⟨l, hl⟩ := accepts_some_link s1 a hacc
    have hacc2 : accepts s2 a = true := by
      rw [← accepts_of_summAgnostic s1 s2 a ⟨h1, h2, h3⟩]
      exact hacc
    rw [step_of_accepts_true now f s1 a l hl hacc,
        step_of_accepts_true now g s2 a l hl hacc2]
    refine ⟨by rw [h1], by rw [h2], ?_⟩
    simp only [List.map_append, h3]
    rfl

/-- The whole fold with different summarizers preserves agreement outside the
summary cells. -/
theorem fold_summAgnostic (now : String)
    (f g : Option String → Option String → String) (l : List Article)
    (s1 s2 : FilterState) (h : SummAgnostic s1 s2) :
    SummAgnostic (l.foldl (step now f) s1) (l.foldl (step now g) s2) := by
  induction l generalizing s1 s2 with
  | nil => exact h
  | cons x xs ih => exact ih _ _ (step_summAgnostic now f g s1 s2 x h)

/-- C7: `get_ai_summary` never propagates a failure: it returns the fixed
"not available" sentinel when the description or API key is falsy, the fixed
"failed" sentinel when the backend errors, and the backend's answer stripped
of surrounding whitespace otherwise; moreover the summarizer's behaviour
never changes which articles are accepted or any non-summary cell of the
appended rows. -/
theorem claim7_summarizer_total_and_nonblocking :
    (∀ (k : Option String) (b : Except Unit String) (t d : Option String),
        pyTruthy d = false ∨ pyTruthy k = false →
        get_ai_summary k b t d = "Summary not available.") ∧
    (∀ (k : Option String) (t d : Option String),
        pyTruthy d = true → pyTruthy k = true →
        get_ai_summary k (Except.error ()) t d = "AI summary failed.") ∧
    (∀ (k : Option String) (t d : Option String) (s : String),
        pyTruthy d = true → pyTruthy k = true →
        get_ai_summary k (Except.ok s) t d = s.trim) ∧
    (∀ (now : String) (f g : Option String → Option String → String)
        (L T : List String) (arts : List Article),
        (runFilter now f L T arts).links = (runFilter now g L T arts).links ∧
        (runFilter now f L T arts).titles = (runFilter now g L T arts).titles ∧
        (runFilter now f L T arts).rows.map eraseSummary =
          (runFilter now g L T arts).rows.map eraseSummary) := by
  refine ⟨?_, ?_, ?_, ?_⟩
  · intro k b t d h
    rcases h with h | h <;> simp [get_ai_summary, h]
  · intro k t d hd hk
    simp [get_ai_summary, hd, hk]
  · intro k t d s hd hk
    simp [get_ai_summary, hd, hk]
  · intro now f g L T arts
    exact fold_summAgnostic now f g arts.reverse (initState L T) (initState L T)
      ⟨rfl, rfl, rfl⟩

/-- Witness for C7: the three sentinel/trim cases at concrete inputs. -/
theorem claim7_summarizer_total_and_nonblocking_witness :
    get_ai_summary (some "k") (Except.ok "x") (some "t") none = "Summary not available." ∧
    get_ai_summary (some "k") (Except.error ()) (some "t") (some "d") = "AI summary failed." ∧
    get_ai_summary (some "k") (Except.ok " hi ") (some "t") (some "d") = " hi ".trim :=
  ⟨claim7_summarizer_total_and_nonblocking.1 (some "k") (Except.ok "x") (some "t") none
      (Or.inl rfl),
   claim7_summarizer_total_and_nonblocking.2.1 (some "k") (some "t") (some "d") rfl rfl,
   claim7_summarizer_total_and_nonblocking.2.2.1 (some "k") (some "t") (some "d") " hi "
      rfl rfl⟩

/-- C8: the row built for an accepted article is exactly the fixed-schema
tuple with empty status, the article's fields, the templated favicon URL over
the link's hostname, the pubDate with current-time fallback when the key is
absent, and the constant state label "Published". -/
theorem claim8_row_schema
    (now : String) (f : Option String → Option String → String)
    (st : FilterState) (a : Article) (l : String)
    (hl : a.link = some l) (hacc : accepts st a = true) :
    (step now f st a).rows = st.rows ++
      [{ status := ""
         title := a.title
         summary := f a.title a.description
         image_url := a.image_url
         source_id := a.source_id
         link := l
         favicon_url := "https://www.google.com/s2/favicons?domain=" ++ netloc l ++ "&sz=64"
         published := pubOrNow a.pubDate now
         state := "Published" }] ∧
    (a.pubDate = none → pubOrNow a.pubDate now = some now) := by
  constructor
  · rw [step_of_accepts_true now f st a l hl hacc]
    rfl
  · intro h
    rw [h]
    rfl

/-- Witness for C8: the row built for one concrete accepted article. -/
theorem claim8_row_schema_witness :
    (step "2026-10-12T00:00:00+00:00" (fun _ _ => "sum") ⟨[], [], []⟩
        ⟨some "t", some "d", some "https://x.com/p", some "i", some "s", none⟩).rows =
      [] ++
      [{ status := ""
         title := some "t"
         summary := (fun _ _ => "sum") (some "t" : Option String) (some "d" : Option String)
         image_url := some "i"
         source_id := some "s"
         link := "https://x.com/p"
         favicon_url := "https://www.google.com/s2/favicons?domain="
           ++ netloc "https://x.com/p" ++ "&sz=64"
         published := pubOrNow none "2026-10-12T00:00:00+00:00"
         state := "Published" }] ∧
    ((none : Option (Option String)) = none →
       pubOrNow none "2026-10-12T00:00:00+00:00" = some "2026-10-12T00:00:00+00:00") :=
  claim8_row_schema "2026-10-12T00:00:00+00:00" (fun _ _ => "sum") ⟨[], [], []⟩
    ⟨some "t", some "d", some "https://x.com/p", some "i", some "s", none⟩
    "https://x.com/p" rfl (by decide)

/-- C9: if ledger authentication fails or the news fetch fails, the error is
swallowed and the run returns early with zero writes. -/
theorem claim9_fatal_errors_no_writes
    (auth : Except Unit (List String × List String))
    (fetch : Except Unit (List Article)) (now : String)
    (f : Option String → Option String → String)
    (h : auth = Except.error () ∨ fetch = Except.error ()) :
    mainWrites auth fetch now f = [] := by
  rcases h with h | h
  · rw [h]
    rfl
  · rw [h]
    unfold mainWrites
    cases auth with
    | error e => rfl
    | ok p =>
      obtain ⟨l0, t0⟩ := p
      rfl

/-- Witness for C9: both failure modes at concrete inputs produce no writes. -/
theorem claim9_fatal_errors_no_writes_witness :
    mainWrites (Except.error ()) (Except.ok []) "n" (fun _ _ => "s") = [] ∧
    mainWrites (Except.ok ([], [])) (Except.error ()) "n" (fun _ _ => "s") = [] :=
  ⟨claim9_fatal_errors_no_writes _ _ "n" (fun _ _ => "s") (Or.inl rfl),
   claim9_fatal_errors_no_writes _ _ "n" (fun _ _ => "s") (Or.inr rfl)⟩

/-- C10: an absent title scores 0 against every known title instead of
raising, so a candidate with a fresh non-empty link and no title is accepted
and its row carries the null title. -/
theorem claim10_null_title_accepted :
    (∀ t : Option String, token_sort_score none t = 0) ∧
    ∀ (now : String) (f : Option String → Option String → String)
      (st : FilterState) (a : Article) (l : String),
      a.link = some l → l ≠ "" → l ∉ st.links → a.title = none →
      (step now f st a).rows = st.rows ++ [buildRow now f a l] ∧
      (buildRow now f a l).title = none := by
  constructor
  · exact token_sort_score_none_left
  · intro now f st a l hl hne hfresh ht
    have hacc : accepts st a = true := by
      rw [accepts_true_iff st a l hl]
      refine ⟨hne, hfresh, ?_⟩
      intro t htm
      rw [ht, token_sort_score_none_left]
      exact Nat.zero_le _
    refine ⟨?_, ?_⟩
    · rw [step_of_accepts_true now f st a l hl hacc]
    · simp [buildRow, ht]

/-- Witness for C10: a concrete untitled article with a fresh link is
accepted against a non-empty known-titles set. -/
theorem claim10_null_title_accepted_witness :
    token_sort_score none (some "kt") = 0 ∧
    (step "n" (fun _ _ => "s") ⟨[], [some "kt"], []⟩
        ⟨none, none, some "u", none, none, none⟩).rows =
      [] ++ [buildRow "n" (fun _ _ => "s") ⟨none, none, some "u", none, none, none⟩ "u"] ∧
    (buildRow "n" (fun _ _ => "s") ⟨none, none, some "u", none, none, none⟩ "u").title
      = none :=
  ⟨claim10_null_title_accepted.1 (some "kt"),
   (claim10_null_title_accepted.2 "n" (fun _ _ => "s") ⟨[], [some "kt"], []⟩
       ⟨none, none, some "u", none, none, none⟩ "u" rfl (by decide) (by decide) rfl).1,
   (claim10_null_title_accepted.2 "n" (fun _ _ => "s") ⟨[], [some "kt"], []⟩
       ⟨none, none, some "u", none, none, none⟩ "u" rfl (by decide) (by decide) rfl).2⟩

/-! ### Idempotence of the second run (claim C4) -/

/-- Auxiliary for C4: if every link known to the first run's current state is
in the second run's link column, every non-null known title has its string in
the second run's title column, and every row the first run still accepts from
here on also lands in those columns, then the second run's fold over the same
candidate suffix leaves its initial state (hence accepts nothing). -/
theorem run2_aux (now1 now2 : String)
    (f1 f2 : Option String → Option String → String)
    (L2 T2 : List String) (l : List Article) :
    ∀ s1 : FilterState,
    (∀ x ∈ s1.links, x ∈ L2) →
    (∀ t ∈ s1.titles, t = none ∨ ∃ s, t = some s ∧ s ∈ T2) →
    (∀ r ∈ (l.foldl (step now1 f1) s1).rows,
        r.link ∈ L2 ∧ ∀ s, r.title = some s → s ∈ T2) →
    l.foldl (step now2 f2) (initState L2 T2) = initState L2 T2 := by
  induction l with
  | nil =>
    intro s1 _ _ _
    rfl
  | cons x xs ih =>
    intro s1 hlinks htitles hfin
    have hfin' : ∀ r ∈ (xs.foldl (step now1 f1) (step now1 f1 s1 x)).rows,
        r.link ∈ L2 ∧ ∀ s, r.title = some s → s ∈ T2 := by
      intro r hr
      exact hfin r (by rw [List.foldl_cons]; exact hr)
    have hrow_mem : ∀ lx, x.link = some lx → accepts s1 x = true →
        buildRow now1 f1 x lx ∈ ((x :: xs).foldl (step now1 f1) s1).rows := by
      intro lx hxl hacc1
      rw [List.foldl_cons, step_of_accepts_true now1 f1 s1 x lx hxl hacc1]
      exact foldl_rows_mem now1 f1 xs _ _ (List.mem_append_right _ (by simp))
    have hx : step now2 f2 (initState L2 T2) x = initState L2 T2 := by
      apply step_of_accepts_false
      cases hxl : x.link with
      | none =>
        unfold accepts
        rw [hxl]
      | some lx =>
        unfold accepts
        rw [hxl]
        dsimp only
        by_cases hemp : lx = ""
        · rw [hemp]
          simp
        · by_cases hmem : lx ∈ (initState L2 T2).links
          · simp [hmem]
          · by_cases hmem1 : lx ∈ s1.links
            · exact absurd (hlinks lx hmem1) hmem
            · by_cases hdup : s1.titles.any
                  (fun t => decide (SIMILARITY_THRESHOLD < token_sort_score x.title t)) = true
              · obtain ⟨t, htm, hsc⟩ := List.any_eq_true.mp hdup
                rcases htitles t htm with htn | ⟨s, hts, hsT2⟩
                · rw [htn, token_sort_score_none_right] at hsc
                  exact absurd hsc (by decide)
                · have hany2 : (initState L2 T2).titles.any
                      (fun u => decide (SIMILARITY_THRESHOLD < token_sort_score x.title u))
                        = true := by
                    refine List.any_eq_true.mpr ⟨some s, ?_, ?_⟩
                    · exact List.mem_map_of_mem some hsT2
                    · rw [← hts]
                      exact hsc
                  rw [hany2]
                  simp
              · have hacc1 : accepts s1 x = true := by
                  rw [accepts_true_iff s1 x lx hxl]
                  refine ⟨hemp, hmem1, ?_⟩
                  intro t htm
                  simp only [List.any_eq_true, decide_eq_true_eq, not_exists,
                    not_and] at hdup
                  exact Nat.le_of_not_lt (hdup t htm)
                have hlk := (hfin _ (hrow_mem lx hxl hacc1)).1
                have hinL2 : lx ∈ L2 := by simpa [buildRow] using hlk
                exact absurd hinL2 hmem
    rw [List.foldl_cons, hx]
    rcases step_cases now1 f1 s1 x with heq | ⟨lx, hxl, hacc1, heq⟩
    · apply ih s1 hlinks htitles
      intro r hr
      apply hfin'
      rw [heq]
      exact hr
    · apply ih (step now1 f1 s1 x) ?_ ?_ hfin'
      · rw [heq]
        intro y hy
        rcases List.mem_cons.mp hy with hy | hy
        · subst hy
          have hlk := (hfin _ (hrow_mem y hxl hacc1)).1
          simpa [buildRow] using hlk
        · exact hlinks y hy
      · rw [heq]
        intro t ht
        rcases List.mem_cons.mp ht with ht | ht
        · subst ht
          cases hxt : x.title with
          | none => exact Or.inl rfl
          | some s =>
            refine Or.inr ⟨s, rfl, ?_⟩
            apply (hfin _ (hrow_mem lx hxl hacc1)).2 s
            simp [buildRow, hxt]
        · exact htitles t ht

/-- C4: rerunning the pipeline on the same fetched batch, with the ledger now
holding its prior columns plus the appended rows (title read from column 2,
link from column 6), accepts nothing — and every first-run row's link is
indeed in the second run's link column, so those candidates are rejected by
exact link match. -/
theorem claim4_second_run_idempotent
    (now1 now2 : String) (f1 f2 : Option String → Option String → String)
    (L0 T0 : List String) (arts : List Article) :
    (runFilter now2 f2
        (L0 ++ (runFilter now1 f1 L0 T0 arts).rows.map OutputRow.link)
        (T0 ++ (runFilter now1 f1 L0 T0 arts).rows.map (fun r => r.title.getD ""))
        arts).rows = [] ∧
    ∀ r ∈ (runFilter now1 f1 L0 T0 arts).rows,
      r.link ∈ L0 ++ (runFilter now1 f1 L0 T0 arts).rows.map OutputRow.link := by
  have h1 : ∀ x ∈ (initState L0 T0).links,
      x ∈ L0 ++ (runFilter now1 f1 L0 T0 arts).rows.map OutputRow.link := by
    intro x hx
    have hx' : x ∈ L0 := hx
    exact List.mem_append_left _ hx'
  have h2 : ∀ t ∈ (initState L0 T0).titles,
      t = none ∨ ∃ s, t = some s ∧
        s ∈ T0 ++ (runFilter now1 f1 L0 T0 arts).rows.map (fun r => r.title.getD "") := by
    intro t ht
    have ht' : t ∈ T0.map some := ht
    obtain ⟨s, hs, rfl⟩ := List.mem_map.mp ht'
    exact Or.inr ⟨s, rfl, List.mem_append_left _ hs⟩
  have h3 : ∀ r ∈ (arts.reverse.foldl (step now1 f1) (initState L0 T0)).rows,
      r.link ∈ L0 ++ (runFilter now1 f1 L0 T0 arts).rows.map OutputRow.link ∧
      ∀ s, r.title = some s →
        s ∈ T0 ++ (runFilter now1 f1 L0 T0 arts).rows.map (fun r => r.title.getD "") := by
    intro r hr
    refine ⟨List.mem_append_right _ (List.mem_map_of_mem _ hr), ?_⟩
    intro s hsr
    refine List.mem_append_right _ (List.mem_map.mpr ⟨r, hr, ?_⟩)
    rw [hsr]
    rfl
  have key := run2_aux now1 now2 f1 f2 _ _ arts.reverse (initState L0 T0) h1 h2 h3
  constructor
  · exact Eq.trans (congrArg FilterState.rows key) rfl
  · intro r hr
    exact List.mem_append_right _ (List.mem_map_of_mem _ hr)

/-- Witness for C4: a concrete one-article batch accepted on the first run
and rejected by link on the second. -/
theorem claim4_second_run_idempotent_witness :
    (runFilter "n2" (fun _ _ => "s2")
        ([] ++ (runFilter "n1" (fun _ _ => "s1") [] []
            [⟨none, none, some "u", none, none, none⟩]).rows.map OutputRow.link)
        ([] ++ (runFilter "n1" (fun _ _ => "s1") [] []
            [⟨none, none, some "u", none, none, none⟩]).rows.map (fun r => r.title.getD ""))
        [⟨none, none, some "u", none, none, none⟩]).rows = [] ∧
    (buildRow "n1" (fun _ _ => "s1") ⟨none, none, some "u", none, none, none⟩ "u").link
      ∈ [] ++ (runFilter "n1" (fun _ _ => "s1") [] []
          [⟨none, none, some "u", none, none, none⟩]).rows.map OutputRow.link :=
  ⟨(claim4_second_run_idempotent "n1" "n2" (fun _ _ => "s1") (fun _ _ => "s2") [] []
      [⟨none, none, some "u", none, none, none⟩]).1,
   (claim4_second_run_idempotent "n1" "n2" (fun _ _ => "s1") (fun _ _ => "s2") [] []
      [⟨none, none, some "u", none, none, none⟩]).2 _ (by decide)⟩

end AiNewsPipeline
